import Mathlib

/-!
Verification of the purdue-syllabi-analyzer analysis pipeline
(`src/analysis/analyze.py` and `src/analysis/models.py`).

Strings from the Python source are modelled as lists of Unicode code points
(`List Nat`), so that the character-level operations of the source
(`str.replace(" ", "")`, `str.upper()`, `str.lower()`, character-class
tests from the regexes) become pure arithmetic on code points.  The
source only ever exercises these operations on ASCII course identifiers
and file names, and the embedding maps each code point independently,
exactly as CPython does on that subtree of inputs.

`ofStr` converts a Lean string literal to this representation so that
concrete test inputs can be written readably.
-/

def ofStr (s : String) : List Nat := s.data.map Char.toNat

/-- `str.upper()` on a single ASCII code point: maps `a`..`z` (97..122)
to `A`..`Z` (65..90), leaves every other code point unchanged. -/
def pyUpper (n : Nat) : Nat := if 97 ≤ n ∧ n ≤ 122 then n - 32 else n

/-- `str.lower()` on a single ASCII code point: maps `A`..`Z` (65..90)
to `a`..`z` (97..122), leaves every other code point unchanged. -/
def pyLower (n : Nat) : Nat := if 65 ≤ n ∧ n ≤ 90 then n + 32 else n

/-- The regex character class `[A-Z]`. -/
def isUpperCode (n : Nat) : Bool := decide (65 ≤ n ∧ n ≤ 90)

/-- The regex character class `\d` (ASCII digits `0`..`9`, 48..57). -/
def isDigitCode (n : Nat) : Bool := decide (48 ≤ n ∧ n ≤ 57)

/-- `course.replace(" ", "").upper()` — removes every space (code point 32)
and uppercases the rest, as in `_normalize_course_code` (analyze.py:166)
and `analyze_program` (analyze.py:243). -/
def stripSpacesUpper (s : List Nat) : List Nat :=
  (s.filter (fun c => c ≠ 32)).map pyUpper

/-- `_extract_department` (analyze.py:33-36): matches the regex
`^([A-Z]+)\d` against the file name and returns the letter group, `none`
when the regex does not match.  The regex matches exactly when the
maximal leading run of uppercase letters is nonempty and is immediately
followed by a digit (backtracking to a shorter letter group cannot
succeed because the group would then be followed by a letter). -/
def extract_department (name : List Nat) : Option (List Nat) :=
  let letters := name.takeWhile isUpperCode
  let rest := name.dropWhile isUpperCode
  match rest with
  | c :: _ => if letters ≠ [] ∧ isDigitCode c then some letters else none
  | [] => none

/-- `_normalize_course_code` (analyze.py:160-171): strip spaces and
uppercase; if the result matches `^([A-Z]+)(\d+)$`, return the letters
followed by the digits left-justified to width 5 with `'0'` (code
point 48) — `num.ljust(5, "0")` pads only when the digit run is shorter
than 5 — otherwise return the stripped uppercased string unchanged. -/
def normalize_course_code (s : List Nat) : List Nat :=
  let code := stripSpacesUpper s
  let dept := code.takeWhile isUpperCode
  let num := code.dropWhile isUpperCode
  if dept ≠ [] ∧ num ≠ [] ∧ num.all isDigitCode then
    dept ++ (num ++ List.replicate (5 - num.length) 48)
  else code

/-- Index of the last `'.'` (code point 46) in a name, or `none`. -/
def lastDotIdx (name : List Nat) : Option Nat :=
  match name.reverse.findIdx? (fun c => c = 46) with
  | some r => some (name.length - 1 - r)
  | none => none

/-- `pathlib.PurePath.stem`: the name up to its last `'.'`, provided that
dot is neither the first nor the last character; otherwise the whole
name (CPython: `i = name.rfind('.'); name[:i] if 0 < i < len(name)-1
else name`). -/
def stemOf (name : List Nat) : List Nat :=
  match lastDotIdx name with
  | some i => if 0 < i ∧ i + 1 < name.length then name.take i else name
  | none => name

/-- `pathlib.PurePath.suffix`: the name from its last `'.'` on, under the
same guard as `stemOf`; empty otherwise. -/
def suffixOf (name : List Nat) : List Nat :=
  match lastDotIdx name with
  | some i => if 0 < i ∧ i + 1 < name.length then name.drop i else []
  | none => []

/-- `f.stem.split("_")[0].upper()` (analyze.py:195 and analyze.py:256):
the leading identifier segment of a file name — the stem up to the first
underscore (code point 95) — uppercased. -/
def code_of_file (name : List Nat) : List Nat :=
  ((stemOf name).takeWhile (fun c => c ≠ 95)).map pyUpper

/-- `f.suffix.lower() in SUPPORTED_EXTENSIONS` where
`SUPPORTED_EXTENSIONS = {".pdf", ".docx"}` (analyze.py:27). -/
def supportedExt (name : List Nat) : Bool :=
  let s := (suffixOf name).map pyLower
  decide (s = ofStr ".pdf") || decide (s = ofStr ".docx")

/-- The supported files of a directory listing (`analyze_program`,
analyze.py:246-250): those whose lowercased suffix is supported. -/
def discover_supported (files : List (List Nat)) : List (List Nat) :=
  files.filter supportedExt

/-- `analyze_program`'s course prefix set (analyze.py:243):
`{c.replace(" ", "").upper() for c in programs[program_name]}` —
note: no zero-padding is applied here, unlike `_normalize_course_code`. -/
def coursePrefixSet (courses : List (List Nat)) : List (List Nat) :=
  courses.map stripSpacesUpper

/-- `analyze_program`'s file selection loop (analyze.py:253-258): keep
the supported files whose leading identifier segment, uppercased, is in
the course prefix set. -/
def matching_files (courses : List (List Nat)) (files : List (List Nat)) :
    List (List Nat) :=
  (discover_supported files).filter
    (fun f => decide (code_of_file f ∈ coursePrefixSet courses))

/-- Modelled from the spec: the file selection of §4.2 ("by program: the
file's leading identifier segment, uppercased, is a member of the set of
NORMALIZED identifiers for that program's course list"), i.e. the same
selection but with the course prefix set built by the canonical
zero-padding normalizer instead of by plain space-stripping.  This is
what claim C4 describes; `matching_files` is what the code does. -/
def matching_files_spec (courses : List (List Nat)) (files : List (List Nat)) :
    List (List Nat) :=
  (discover_supported files).filter
    (fun f => decide (code_of_file f ∈ courses.map normalize_course_code))

/-- Python string comparison: lexicographic on code points.  `missing.sort()`
(analyze.py:201) sorts by this total order; since equal strings are
identical, every correct sort produces the same list, which we compute
with insertion sort. -/
def lexLe : List Nat → List Nat → Bool
  | [], _ => true
  | _ :: _, [] => false
  | a :: as, b :: bs => if a < b then true else if a = b then lexLe as bs else false

def lexLeP (a b : List Nat) : Prop := lexLe a b = true

instance : DecidableRel lexLeP := fun a b =>
  inferInstanceAs (Decidable (lexLe a b = true))

/-- `f.stem.split("_")[0].upper()` collected over the supported files of
the syllabi directory (`find_missing_syllabi`, analyze.py:194-198). -/
def syllabi_codes (files : List (List Nat)) : List (List Nat) :=
  (discover_supported files).map code_of_file

/-- The missing list of `find_missing_syllabi` (analyze.py:200-201):
the courses, in their original raw form, whose normalized code is not
among the discovered file codes, sorted. -/
def find_missing (courses : List (List Nat)) (files : List (List Nat)) :
    List (List Nat) :=
  List.insertionSort lexLeP
    (courses.filter (fun c => decide (normalize_course_code c ∉ syllabi_codes files)))

/-- The JSON report object written by `find_missing_syllabi`
(analyze.py:214-220). -/
structure MissingReport where
  program : List Nat
  total_courses : Nat
  found : Nat
  missing_count : Nat
  missing_courses : List (List Nat)
  deriving DecidableEq

def missing_report (program : List Nat) (courses : List (List Nat))
    (files : List (List Nat)) : MissingReport :=
  let missing := find_missing courses files
  { program := program
    total_courses := courses.length
    found := courses.length - missing.length
    missing_count := missing.length
    missing_courses := missing }

/-!
The rubric schema of `src/analysis/models.py`, and its pydantic
validation.  Model output is `json.loads`-parsed JSON (a tree of nulls,
booleans, numbers, strings, arrays and objects); `model_validate` then
checks it against the fixed shape.  Pydantic's default config ignores
unknown object fields, requires every declared field without a default,
checks `Literal[0, 1]` and the three decision literals exactly, and
reports a validation error otherwise (it collects all field errors, but
the accept/reject outcome is the conjunction of the per-field checks,
which the sequential checks below reproduce).
-/

inductive Json where
  | null : Json
  | bool : Bool → Json
  | num : Int → Json
  | str : String → Json
  | arr : List Json → Json
  | obj : List (String × Json) → Json

/-- Field lookup in a parsed JSON object (a `dict` after `json.loads`,
so keys are effectively unique). -/
def getField (fs : List (String × Json)) (k : String) : Option Json :=
  (fs.find? (fun p => p.1 = k)).map (fun p => p.2)

structure ScoredCriterion where
  score : Int
  rationale : String
  deriving DecidableEq

structure Pillars where
  interdisciplinary_academics : ScoredCriterion
  undergraduate_research : ScoredCriterion
  community_and_global_engagement : ScoredCriterion
  leadership_development : ScoredCriterion
  deriving DecidableEq

structure Rigor where
  advanced_content : ScoredCriterion
  sustained_inquiry : ScoredCriterion
  independent_or_collaborative_work : ScoredCriterion
  deriving DecidableEq

structure StudentAgencyAndResponsibility where
  student_defined_projects : ScoredCriterion
  consequential_decision_making : ScoredCriterion
  extended_analytical_commitment : ScoredCriterion
  deriving DecidableEq

structure DemonstrableEvidenceOfLearning where
  major_project : ScoredCriterion
  portfolio_or_capstone : ScoredCriterion
  public_facing_outcome : ScoredCriterion
  sustained_assessment : ScoredCriterion
  deriving DecidableEq

structure Exclusions where
  lower_division_introductory : ScoredCriterion
  broad_introductory_coverage : ScoredCriterion
  skills_only_or_tool_training : ScoredCriterion
  lacks_major_deliverable : ScoredCriterion
  already_counted : ScoredCriterion
  deriving DecidableEq

structure ReviewDecision where
  decision : String
  rationale : String
  deriving DecidableEq

structure CourseInformation where
  course_number : Option String
  course_title : Option String
  department : Option String
  college : Option String
  review_date : Option String
  deriving DecidableEq

structure CourseAnalysis where
  pillars : Pillars
  rigor : Rigor
  student_agency_and_responsibility : StudentAgencyAndResponsibility
  demonstrable_evidence_of_learning : DemonstrableEvidenceOfLearning
  exclusions : Exclusions
  review_decision : ReviewDecision
  deriving DecidableEq

structure SyllabusReview where
  course_information : CourseInformation
  course_analysis : CourseAnalysis
  deriving DecidableEq

/-- A required field: missing is a validation error. -/
def reqField (fs : List (String × Json)) (k : String) : Except String Json :=
  match getField fs k with
  | some j => Except.ok j
  | none => Except.error ("missing field " ++ k)

/-- `ScoredCriterion`: `score` must be the literal 0 or 1, `rationale`
must be a string (models.py:8-10). -/
def validateScored (j : Json) : Except String ScoredCriterion :=
  match j with
  | Json.obj fs => do
    let s ← reqField fs "score"
    let sc ← match s with
      | Json.num n => if n = 0 ∨ n = 1 then Except.ok n
                      else Except.error "score not in Literal[0, 1]"
      | _ => Except.error "score not in Literal[0, 1]"
    let r ← reqField fs "rationale"
    let ra ← match r with
      | Json.str t => Except.ok t
      | _ => Except.error "rationale must be a string"
    Except.ok { score := sc, rationale := ra }
  | _ => Except.error "criterion must be an object"

def reqScored (fs : List (String × Json)) (k : String) :
    Except String ScoredCriterion := do
  let j ← reqField fs k
  validateScored j

def validatePillars (j : Json) : Except String Pillars :=
  match j with
  | Json.obj fs => do
    let a ← reqScored fs "interdisciplinary_academics"
    let b ← reqScored fs "undergraduate_research"
    let c ← reqScored fs "community_and_global_engagement"
    let d ← reqScored fs "leadership_development"
    Except.ok { interdisciplinary_academics := a, undergraduate_research := b,
                community_and_global_engagement := c, leadership_development := d }
  | _ => Except.error "pillars must be an object"

def validateRigor (j : Json) : Except String Rigor :=
  match j with
  | Json.obj fs => do
    let a ← reqScored fs "advanced_content"
    let b ← reqScored fs "sustained_inquiry"
    let c ← reqScored fs "independent_or_collaborative_work"
    Except.ok { advanced_content := a, sustained_inquiry := b,
                independent_or_collaborative_work := c }
  | _ => Except.error "rigor must be an object"

def validateAgency (j : Json) : Except String StudentAgencyAndResponsibility :=
  match j with
  | Json.obj fs => do
    let a ← reqScored fs "student_defined_projects"
    let b ← reqScored fs "consequential_decision_making"
    let c ← reqScored fs "extended_analytical_commitment"
    Except.ok { student_defined_projects := a, consequential_decision_making := b,
                extended_analytical_commitment := c }
  | _ => Except.error "student_agency_and_responsibility must be an object"

def validateEvidence (j : Json) : Except String DemonstrableEvidenceOfLearning :=
  match j with
  | Json.obj fs => do
    let a ← reqScored fs "major_project"
    let b ← reqScored fs "portfolio_or_capstone"
    let c ← reqScored fs "public_facing_outcome"
    let d ← reqScored fs "sustained_assessment"
    Except.ok { major_project := a, portfolio_or_capstone := b,
                public_facing_outcome := c, sustained_assessment := d }
  | _ => Except.error "demonstrable_evidence_of_learning must be an object"

def validateExclusions (j : Json) : Except String Exclusions :=
  match j with
  | Json.obj fs => do
    let a ← reqScored fs "lower_division_introductory"
    let b ← reqScored fs "broad_introductory_coverage"
    let c ← reqScored fs "skills_only_or_tool_training"
    let d ← reqScored fs "lacks_major_deliverable"
    let e ← reqScored fs "already_counted"
    Except.ok { lower_division_introductory := a, broad_introductory_coverage := b,
                skills_only_or_tool_training := c, lacks_major_deliverable := d,
                already_counted := e }
  | _ => Except.error "exclusions must be an object"

/-- `ReviewDecision`: `decision` must be one of the three literals
(models.py:47-49). -/
def validateDecision (j : Json) : Except String ReviewDecision :=
  match j with
  | Json.obj fs => do
    let d ← reqField fs "decision"
    let de ← match d with
      | Json.str t =>
        if t = "approved" ∨ t = "not_approved" ∨ t = "deferred" then Except.ok t
        else Except.error "decision not one of the three literals"
      | _ => Except.error "decision not one of the three literals"
    let r ← reqField fs "rationale"
    let ra ← match r with
      | Json.str t => Except.ok t
      | _ => Except.error "rationale must be a string"
    Except.ok { decision := de, rationale := ra }
  | _ => Except.error "review_decision must be an object"

/-- An optional `str | None = None` field of `CourseInformation`:
absent or null gives `none`; present non-null values must be strings. -/
def optStrField (fs : List (String × Json)) (k : String) :
    Except String (Option String) :=
  match getField fs k with
  | none => Except.ok none
  | some Json.null => Except.ok none
  | some (Json.str t) => Except.ok (some t)
  | some _ => Except.error (k ++ " must be a string or null")

def validateCourseInformation (j : Json) : Except String CourseInformation :=
  match j with
  | Json.obj fs => do
    let a ← optStrField fs "course_number"
    let b ← optStrField fs "course_title"
    let c ← optStrField fs "department"
    let d ← optStrField fs "college"
    let e ← optStrField fs "review_date"
    Except.ok { course_number := a, course_title := b, department := c,
                college := d, review_date := e }
  | _ => Except.error "course_information must be an object"

/-- `CourseAnalysis` (models.py:60-66): all six fields required, each
validated by its own model; field order follows the declaration order. -/
def validateCourseAnalysis (j : Json) : Except String CourseAnalysis :=
  match j with
  | Json.obj fs => do
    let p ← (reqField fs "pillars") >>= validatePillars
    let r ← (reqField fs "rigor") >>= validateRigor
    let sa ← (reqField fs "student_agency_and_responsibility") >>= validateAgency
    let ev ← (reqField fs "demonstrable_evidence_of_learning") >>= validateEvidence
    let ex ← (reqField fs "exclusions") >>= validateExclusions
    let rd ← (reqField fs "review_decision") >>= validateDecision
    Except.ok { pillars := p, rigor := r, student_agency_and_responsibility := sa,
                demonstrable_evidence_of_learning := ev, exclusions := ex,
                review_decision := rd }
  | _ => Except.error "course_analysis must be an object"

/-- `SyllabusReview.model_validate(raw)` (models.py:69-71, called at
analyze.py:107). -/
def validateSyllabusReview (j : Json) : Except String SyllabusReview :=
  match j with
  | Json.obj fs => do
    let ci ← (reqField fs "course_information") >>= validateCourseInformation
    let ca ← (reqField fs "course_analysis") >>= validateCourseAnalysis
    Except.ok { course_information := ci, course_analysis := ca }
  | _ => Except.error "review must be an object"

def isOkE {ε α : Type} : Except ε α → Bool
  | Except.ok _ => true
  | Except.error _ => false

/-!
The batch orchestrator `_analyze_files` (analyze.py:115-141).  A result
element of the Result Store file is either a validated review dict
tagged with `_source_file`, or an error dict
`{"_source_file": ..., "_error": ...}`.  The judgment call plus
validation (`analyze_syllabus`, analyze.py:87-107, whose exceptions the
loop catches) is abstracted as a function from the file to
`Except String SyllabusReview`; the loop itself is embedded exactly:
load existing results and build the `done` set once, then for each file
in order skip it when its name is in `done`, otherwise append exactly
one record (review on success, error record on failure) and rewrite the
whole store file (`_save_results`, analyze.py:110-112).
-/

inductive Record where
  | rubric (src : List Nat) (review : SyllabusReview)
  | error (src : List Nat) (msg : String)
  deriving DecidableEq

/-- The `_source_file` tag of a stored record. -/
def Record.src : Record → List Nat
  | Record.rubric s _ => s
  | Record.error s _ => s

/-- `{r["_source_file"] for r in results}` (analyze.py:120). -/
def sources (rs : List Record) : List (List Nat) := rs.map Record.src

/-- The record appended for one non-skipped file (analyze.py:131-138):
a tagged review on success, an error record carrying the failure's
message on any exception. -/
def mkRecord (judge : List Nat → Except String SyllabusReview)
    (f : List Nat) : Record :=
  match judge f with
  | Except.ok rv => Record.rubric f rv
  | Except.error e => Record.error f e

/-- The in-memory results list together with the store file on disk
(`none` = the file does not exist). -/
structure BatchState where
  results : List Record
  disk : Option (List Record)
  deriving DecidableEq

/-- One iteration of the `for file_path in files` loop
(analyze.py:125-139): skip (without saving) when the file's name is in
the `done` set computed at load time, otherwise append one record and
persist the whole list. -/
def stepFile (judge : List Nat → Except String SyllabusReview)
    (done : List (List Nat)) (st : BatchState) (f : List Nat) : BatchState :=
  if f ∈ done then st
  else
    let rs := st.results ++ [mkRecord judge f]
    { results := rs, disk := some rs }

/-- `_analyze_files` (analyze.py:115-141): load existing results (empty
when the store file does not exist), build the completed-keys set, then
fold the per-file step over the discovered files in order. -/
def analyzeFiles (judge : List Nat → Except String SyllabusReview)
    (files : List (List Nat)) (disk : Option (List Record)) : BatchState :=
  files.foldl (stepFile judge (sources (disk.getD [])))
    { results := disk.getD [], disk := disk }

/-!
Department grouping of `analyze_program` (analyze.py:265-270): the
matching files are grouped into a dict keyed by extracted department;
a file whose name yields no department (`if dept:` is falsy) is added
to no group.  Each group is then analyzed as its own scope with its own
Result Store file (analyze.py:276-278).
-/

/-- `dept_files.setdefault(dept, []).append(f)` on an insertion-ordered
association list. -/
def addToGroup (gs : List (List Nat × List (List Nat))) (d : List Nat)
    (f : List Nat) : List (List Nat × List (List Nat)) :=
  match gs with
  | [] => [(d, [f])]
  | (k, fs) :: rest =>
    if k = d then (k, fs ++ [f]) :: rest else (k, fs) :: addToGroup rest d f

/-- The grouping loop of analyze.py:266-270. -/
def dept_files (files : List (List Nat)) : List (List Nat × List (List Nat)) :=
  files.foldl
    (fun gs f =>
      match extract_department f with
      | some d => addToGroup gs d f
      | none => gs)
    []

/-!  Concrete sample data used by the witnesses.  -/

def sampleCriterion : ScoredCriterion := { score := 1, rationale := "present" }

def sampleReview : SyllabusReview :=
  { course_information :=
      { course_number := some "ABE 10100", course_title := none,
        department := none, college := none, review_date := none }
    course_analysis :=
      { pillars :=
          { interdisciplinary_academics := sampleCriterion,
            undergraduate_research := sampleCriterion,
            community_and_global_engagement := sampleCriterion,
            leadership_development := sampleCriterion }
        rigor :=
          { advanced_content := sampleCriterion,
            sustained_inquiry := sampleCriterion,
            independent_or_collaborative_work := sampleCriterion }
        student_agency_and_responsibility :=
          { student_defined_projects := sampleCriterion,
            consequential_decision_making := sampleCriterion,
            extended_analytical_commitment := sampleCriterion }
        demonstrable_evidence_of_learning :=
          { major_project := sampleCriterion,
            portfolio_or_capstone := sampleCriterion,
            public_facing_outcome := sampleCriterion,
            sustained_assessment := sampleCriterion }
        exclusions :=
          { lower_division_introductory := sampleCriterion,
            broad_introductory_coverage := sampleCriterion,
            skills_only_or_tool_training := sampleCriterion,
            lacks_major_deliverable := sampleCriterion,
            already_counted := sampleCriterion }
        review_decision := { decision := "approved", rationale := "meets rubric" } } }

/-- A concrete judgment oracle: the second file fails, the rest succeed. -/
def sampleJudge (f : List Nat) : Except String SyllabusReview :=
  if f = ofStr "ABE10200_B.pdf" then Except.error "malformed output"
  else Except.ok sampleReview

/-- The property claim C6 asserts of every input string: whenever the
space-stripped uppercased input decomposes as a nonempty run of
uppercase letters followed by a nonempty run of digits, the returned
value is the letters followed by a digit run of EXACTLY 5 characters
(so its length is the letter count plus 5). -/
def padsToExactlyFive (s : List Nat) : Prop :=
  ∀ dept num, stripSpacesUpper s = dept ++ num → dept ≠ [] →
    (∀ x ∈ dept, isUpperCode x = true) → num ≠ [] →
    (∀ x ∈ num, isDigitCode x = true) →
    (normalize_course_code s).length = dept.length + 5

example : extract_department (ofStr "POL10100_Spring2026_X.pdf") = some (ofStr "POL") := by decide
example : extract_department (ofStr "readme.txt") = none := by decide
example : normalize_course_code (ofStr "ABE 201") = ofStr "ABE20100" := by decide
example : normalize_course_code (ofStr "POL 10100") = ofStr "POL10100" := by decide
example : normalize_course_code (ofStr "cs18000") = ofStr "CS18000" := by decide
example : code_of_file (ofStr "ABE20100_F25.pdf") = ofStr "ABE20100" := by decide
example : supportedExt (ofStr "ABE20100_F25.pdf") = true := by decide
example : supportedExt (ofStr "x.PDF") = true := by decide
example : supportedExt (ofStr "readme") = false := by decide
example : matching_files [ofStr "ABE 201"] [ofStr "ABE20100_F25.pdf"] = [] := by decide
example : matching_files_spec [ofStr "ABE 201"] [ofStr "ABE20100_F25.pdf"] = [ofStr "ABE20100_F25.pdf"] := by decide

example : find_missing [ofStr "ABE 201", ofStr "XYZ 999"] [ofStr "ABE20100_F25.pdf"] = [ofStr "XYZ 999"] := by decide

example :
    dept_files [ofStr "abe20100_F25.pdf", ofStr "ABE10100_S.pdf"] =
      [(ofStr "ABE", [ofStr "ABE10100_S.pdf"])] := by decide

/-!  Helper lemmas about the orchestrator fold.  -/

theorem stepFile_of_mem (judge : List Nat → Except String SyllabusReview)
    (done : List (List Nat)) (st : BatchState) (f : List Nat)
    (h : f ∈ done) : stepFile judge done st f = st := by
  simp [stepFile, h]

theorem stepFile_of_not_mem (judge : List Nat → Except String SyllabusReview)
    (done : List (List Nat)) (st : BatchState) (f : List Nat)
    (h : f ∉ done) :
    stepFile judge done st f =
      { results := st.results ++ [mkRecord judge f],
        disk := some (st.results ++ [mkRecord judge f]) } := by
  simp [stepFile, h]

/-- The `_source_file` tag of the appended record is the file itself. -/
theorem src_mkRecord (judge : List Nat → Except String SyllabusReview)
    (f : List Nat) : Record.src (mkRecord judge f) = f := by
  cases h : judge f <;> simp [mkRecord, h, Record.src]

theorem sources_sub_of_prefix_rec {l₁ l₂ : List Record} (h : l₁ <+: l₂) :
    ∀ k ∈ sources l₁, k ∈ sources l₂ := by
  intro k hk
  exact (h.sublist.map Record.src).subset hk

/-- Across the whole loop, the results list only ever grows by
appending: the starting list stays a verbatim-preserved front segment. -/
theorem foldl_results_grow (judge : List Nat → Except String SyllabusReview)
    (done : List (List Nat)) (files : List (List Nat)) (st : BatchState) :
    st.results <+: (files.foldl (stepFile judge done) st).results := by
  induction files generalizing st with
  | nil => exact List.prefix_rfl
  | cons f rest ih =>
    rw [List.foldl_cons]
    by_cases h : f ∈ done
    · rw [stepFile_of_mem judge done st f h]; exact ih st
    · rw [stepFile_of_not_mem judge done st f h]
      have h1 : st.results <+: st.results ++ [mkRecord judge f] :=
        List.prefix_append st.results [mkRecord judge f]
      exact h1.trans
        (ih { results := st.results ++ [mkRecord judge f],
              disk := some (st.results ++ [mkRecord judge f]) })

/-- Every file of the input list ends up in the completed-keys set of
the final results, provided the `done` set only names keys already in
the starting results. -/
theorem foldl_mem_sources (judge : List Nat → Except String SyllabusReview)
    (done : List (List Nat)) (files : List (List Nat)) (st : BatchState)
    (hdone : ∀ k ∈ done, k ∈ sources st.results) :
    ∀ f ∈ files, f ∈ sources (files.foldl (stepFile judge done) st).results := by
  induction files generalizing st with
  | nil => intro f hf; cases hf
  | cons g rest ih =>
    intro f hf
    rw [List.foldl_cons]
    by_cases hg : g ∈ done
    · rw [stepFile_of_mem judge done st g hg]
      rcases List.mem_cons.mp hf with rfl | hf
      · have hsrc : f ∈ sources st.results := hdone f hg
        exact sources_sub_of_prefix_rec (foldl_results_grow judge done rest st) f hsrc
      · exact ih st hdone f hf
    · rw [stepFile_of_not_mem judge done st g hg]
      set st' : BatchState :=
        { results := st.results ++ [mkRecord judge g],
          disk := some (st.results ++ [mkRecord judge g]) } with hst'
      have hsub : ∀ k ∈ done, k ∈ sources st'.results := by
        intro k hk
        have hk' : k ∈ sources st.results := hdone k hk
        simp only [hst', sources, List.map_append, List.mem_append]
        exact Or.inl hk'
      rcases List.mem_cons.mp hf with rfl | hf
      · have hsrc : f ∈ sources st'.results := by
          simp only [hst', sources, List.map_append, List.mem_append]
          right
          simp [src_mkRecord]
        exact sources_sub_of_prefix_rec (foldl_results_grow judge done rest st') f hsrc
      · exact ih st' hsub f hf

/-- Either the loop never persisted (the state is untouched), or the
store file on disk holds exactly the final results list. -/
theorem foldl_disk_inv (judge : List Nat → Except String SyllabusReview)
    (done : List (List Nat)) (files : List (List Nat)) (st : BatchState) :
    files.foldl (stepFile judge done) st = st ∨
      (files.foldl (stepFile judge done) st).disk =
        some (files.foldl (stepFile judge done) st).results := by
  induction files generalizing st with
  | nil => exact Or.inl rfl
  | cons g rest ih =>
    rw [List.foldl_cons]
    by_cases hg : g ∈ done
    · rw [stepFile_of_mem judge done st g hg]; exact ih st
    · rw [stepFile_of_not_mem judge done st g hg]
      set st' : BatchState :=
        { results := st.results ++ [mkRecord judge g],
          disk := some (st.results ++ [mkRecord judge g]) } with hst'
      rcases ih st' with h | h
      · right; rw [h]
      · right; exact h

/-- When every file is already completed, the loop is a no-op. -/
theorem foldl_all_skipped (judge : List Nat → Except String SyllabusReview)
    (done : List (List Nat)) (files : List (List Nat)) (st : BatchState)
    (h : ∀ f ∈ files, f ∈ done) :
    files.foldl (stepFile judge done) st = st := by
  induction files generalizing st with
  | nil => rfl
  | cons g rest ih =>
    rw [List.foldl_cons, stepFile_of_mem judge done st g (h g (.head rest))]
    exact ih st (fun f hf => h f (.tail g hf))

/-- Every record of the final results either was present at the start
or records one of the input files. -/
theorem foldl_src_bound (judge : List Nat → Except String SyllabusReview)
    (done : List (List Nat)) (files : List (List Nat)) (st : BatchState) :
    ∀ r ∈ (files.foldl (stepFile judge done) st).results,
      r ∈ st.results ∨ Record.src r ∈ files := by
  induction files generalizing st with
  | nil => intro r hr; exact Or.inl hr
  | cons g rest ih =>
    intro r hr
    rw [List.foldl_cons] at hr
    by_cases hg : g ∈ done
    · rw [stepFile_of_mem judge done st g hg] at hr
      rcases ih st r hr with h | h
      · exact Or.inl h
      · exact Or.inr (.tail g h)
    · rw [stepFile_of_not_mem judge done st g hg] at hr
      rcases ih _ r hr with h | h
      · rcases List.mem_append.mp h with h | h
        · exact Or.inl h
        · have : r = mkRecord judge g := by simpa using h
          subst this
          have : Record.src (mkRecord judge g) = g := by
            cases hj : judge g <;> simp [mkRecord, hj, Record.src]
          rw [this]
          exact Or.inr (.head rest)
      · exact Or.inr (.tail g h)

/-- C1: Resume idempotence — running `_analyze_files` twice in
succession over the same file list, with the Result Store file left in
place between the runs, appends no record during the second run, leaves
the store file unchanged, and every discovered file's name is already in
the second run's completed-keys set (so every item is skipped). -/
theorem claim_C1_resume_idempotence
    (judge : List Nat → Except String SyllabusReview)
    (files : List (List Nat)) (d0 : Option (List Record)) :
    (analyzeFiles judge files (analyzeFiles judge files d0).disk).results =
        (analyzeFiles judge files d0).results ∧
      (analyzeFiles judge files (analyzeFiles judge files d0).disk).disk =
        (analyzeFiles judge files d0).disk ∧
      ∀ f ∈ files, f ∈ sources ((analyzeFiles judge files d0).disk.getD []) := by
  have hmem : ∀ f ∈ files, f ∈ sources (analyzeFiles judge files d0).results :=
    foldl_mem_sources judge (sources (d0.getD [])) files
      { results := d0.getD [], disk := d0 } (fun k hk => hk)
  rcases foldl_disk_inv judge (sources (d0.getD [])) files
      { results := d0.getD [], disk := d0 } with hsame | hdisk
  · have h1 : analyzeFiles judge files d0 = { results := d0.getD [], disk := d0 } :=
      hsame
    have hd : (analyzeFiles judge files d0).disk = d0 := by rw [h1]
    rw [hd]
    refine ⟨rfl, hd, ?_⟩
    intro f hf
    have hf' := hmem f hf
    rw [h1] at hf'
    exact hf'
  · have hdisk' : (analyzeFiles judge files d0).disk =
        some (analyzeFiles judge files d0).results := hdisk
    have hskip : analyzeFiles judge files (analyzeFiles judge files d0).disk =
        { results := (analyzeFiles judge files d0).results,
          disk := (analyzeFiles judge files d0).disk } := by
      rw [hdisk']
      exact foldl_all_skipped judge (sources (analyzeFiles judge files d0).results)
        files _ (fun f hf => hmem f hf)
    rw [hskip]
    refine ⟨rfl, rfl, ?_⟩
    intro f hf
    rw [hdisk']
    exact hmem f hf

/-- C1 witness: a concrete one-file run; re-running over the produced
store changes nothing and the file is completed. -/
theorem claim_C1_resume_idempotence_witness :
    (analyzeFiles sampleJudge [ofStr "ABE10100_A.pdf"]
        (analyzeFiles sampleJudge [ofStr "ABE10100_A.pdf"] none).disk).results =
      (analyzeFiles sampleJudge [ofStr "ABE10100_A.pdf"] none).results ∧
    ofStr "ABE10100_A.pdf" ∈
      sources ((analyzeFiles sampleJudge [ofStr "ABE10100_A.pdf"] none).disk.getD []) := by
  have h := claim_C1_resume_idempotence sampleJudge [ofStr "ABE10100_A.pdf"] none
  exact ⟨h.1, h.2.2 (ofStr "ABE10100_A.pdf") (by decide)⟩

/-- C2: Partial-failure isolation — a failure of the judgment call or
validation for one item is converted into an Error Record carrying the
failure's message, persisted, and the loop continues: with 3 inputs not
yet completed where the second fails, the store ends with exactly the
3 records (Rubric, Error, Rubric) in order, so the third input was still
processed. -/
theorem claim_C2_partial_failure_isolation
    (judge : List Nat → Except String SyllabusReview)
    (f1 f2 f3 : List Nat) (rv1 rv3 : SyllabusReview) (e : String)
    (h1 : judge f1 = Except.ok rv1) (h2 : judge f2 = Except.error e)
    (h3 : judge f3 = Except.ok rv3) :
    (∀ (judge' : List Nat → Except String SyllabusReview)
        (done : List (List Nat)) (st : BatchState) (f : List Nat) (err : String),
        f ∉ done → judge' f = Except.error err →
        stepFile judge' done st f =
          { results := st.results ++ [Record.error f err],
            disk := some (st.results ++ [Record.error f err]) }) ∧
      (analyzeFiles judge [f1, f2, f3] none).results =
        [Record.rubric f1 rv1, Record.error f2 e, Record.rubric f3 rv3] ∧
      (analyzeFiles judge [f1, f2, f3] none).disk =
        some [Record.rubric f1 rv1, Record.error f2 e, Record.rubric f3 rv3] := by
  refine ⟨?_, ?_, ?_⟩
  · intro judge' done st f err hf hj
    rw [stepFile_of_not_mem judge' done st f hf]
    simp [mkRecord, hj]
  · simp [analyzeFiles, stepFile, mkRecord, sources, h1, h2, h3]
  · simp [analyzeFiles, stepFile, mkRecord, sources, h1, h2, h3]

/-- C2 witness: three concrete files, the second failing. -/
theorem claim_C2_partial_failure_isolation_witness :
    (analyzeFiles sampleJudge
        [ofStr "ABE10100_A.pdf", ofStr "ABE10200_B.pdf", ofStr "ABE10300_C.pdf"]
        none).results =
      [Record.rubric (ofStr "ABE10100_A.pdf") sampleReview,
       Record.error (ofStr "ABE10200_B.pdf") "malformed output",
       Record.rubric (ofStr "ABE10300_C.pdf") sampleReview] :=
  (claim_C2_partial_failure_isolation sampleJudge
    (ofStr "ABE10100_A.pdf") (ofStr "ABE10200_B.pdf") (ofStr "ABE10300_C.pdf")
    sampleReview sampleReview "malformed output" rfl rfl rfl).2.1

/-- C3: Append-only frame property of the Result Store — each loop
iteration either skips (results and disk untouched) or appends exactly
one new record at the end and persists exactly the extended sequence;
over a whole run the loaded sequence is preserved verbatim as a front
segment of the final results, and the final store file is either the
original one (nothing was processed) or holds exactly the final
results. -/
theorem claim_C3_append_only_frame :
    (∀ (judge : List Nat → Except String SyllabusReview)
        (done : List (List Nat)) (st : BatchState) (f : List Nat),
        (f ∈ done ∧ stepFile judge done st f = st) ∨
          (f ∉ done ∧ ∃ r,
            (stepFile judge done st f).results = st.results ++ [r] ∧
            (stepFile judge done st f).disk = some (st.results ++ [r]))) ∧
      (∀ (judge : List Nat → Except String SyllabusReview)
          (files : List (List Nat)) (d : Option (List Record)),
        (d.getD []) <+: (analyzeFiles judge files d).results) ∧
      (∀ (judge : List Nat → Except String SyllabusReview)
          (files : List (List Nat)) (d : Option (List Record)),
        (analyzeFiles judge files d).disk = d ∨
          (analyzeFiles judge files d).disk =
            some (analyzeFiles judge files d).results) := by
  refine ⟨?_, ?_, ?_⟩
  · intro judge done st f
    by_cases h : f ∈ done
    · exact Or.inl ⟨h, stepFile_of_mem judge done st f h⟩
    · refine Or.inr ⟨h, mkRecord judge f, ?_, ?_⟩
      · rw [stepFile_of_not_mem judge done st f h]
      · rw [stepFile_of_not_mem judge done st f h]
  · intro judge files d
    exact foldl_results_grow judge (sources (d.getD [])) files
      { results := d.getD [], disk := d }
  · intro judge files d
    rcases foldl_disk_inv judge (sources (d.getD [])) files
        { results := d.getD [], disk := d } with h | h
    · left
      have : (analyzeFiles judge files d) =
          { results := d.getD [], disk := d } := h
      rw [this]
    · exact Or.inr h

/-!  Helper lemmas about code points and the normalizer.  -/

theorem pyUpper_idem (n : Nat) : pyUpper (pyUpper n) = pyUpper n := by
  unfold pyUpper
  by_cases h : 97 ≤ n ∧ n ≤ 122
  · rw [if_pos h, if_neg (by omega)]
  · rw [if_neg h, if_neg h]

theorem pyUpper_ne_space {n : Nat} (h : n ≠ 32) : pyUpper n ≠ 32 := by
  unfold pyUpper
  by_cases h' : 97 ≤ n ∧ n ≤ 122
  · rw [if_pos h']; omega
  · rw [if_neg h']; exact h

theorem pyUpper_fix_of_upper {n : Nat} (h : isUpperCode n = true) :
    pyUpper n = n := by
  simp only [isUpperCode, decide_eq_true_iff] at h
  unfold pyUpper
  rw [if_neg (by omega)]

theorem pyUpper_fix_of_digit {n : Nat} (h : isDigitCode n = true) :
    pyUpper n = n := by
  simp only [isDigitCode, decide_eq_true_iff] at h
  unfold pyUpper
  rw [if_neg (by omega)]

theorem upper_ne_space {n : Nat} (h : isUpperCode n = true) : n ≠ 32 := by
  simp only [isUpperCode, decide_eq_true_iff] at h
  omega

theorem digit_ne_space {n : Nat} (h : isDigitCode n = true) : n ≠ 32 := by
  simp only [isDigitCode, decide_eq_true_iff] at h
  omega

theorem digit_not_upper {n : Nat} (h : isDigitCode n = true) :
    isUpperCode n = false := by
  simp only [isDigitCode, decide_eq_true_iff] at h
  simp only [isUpperCode, decide_eq_false_iff_not]
  omega

/-- `takeWhile`/`dropWhile` on a list that starts with a run satisfying
the predicate followed by an element breaking it. -/
theorem takeWhile_append_run {p : Nat → Bool} (d : List Nat) (c : Nat)
    (r : List Nat) (hd : ∀ x ∈ d, p x = true) (hc : p c = false) :
    (d ++ c :: r).takeWhile p = d ∧ (d ++ c :: r).dropWhile p = c :: r := by
  induction d with
  | nil => simp [List.takeWhile_cons, List.dropWhile_cons, hc]
  | cons a as ih =>
    have ha : p a = true := hd a (List.Mem.head as)
    have ih' := ih (fun x hx => hd x (List.Mem.tail a hx))
    simp only [List.cons_append, List.takeWhile_cons, List.dropWhile_cons, ha,
      if_true]
    exact ⟨by rw [ih'.1], by rw [ih'.2]⟩

theorem list_map_fix {f : Nat → Nat} {l : List Nat}
    (h : ∀ x ∈ l, f x = x) : l.map f = l := by
  have h1 : l.map f = l.map id := List.map_congr_left h
  rw [h1, List.map_id]

/-- A list whose elements are all fixed by `pyUpper` and are not spaces
is a fixed point of the strip-and-uppercase pass. -/
theorem stripSpacesUpper_fix {l : List Nat}
    (h : ∀ x ∈ l, x ≠ 32 ∧ pyUpper x = x) : stripSpacesUpper l = l := by
  unfold stripSpacesUpper
  have hf : l.filter (fun c => c ≠ 32) = l := by
    rw [List.filter_eq_self]
    intro a ha
    simpa using (h a ha).1
  rw [hf]
  exact list_map_fix (fun x hx => (h x hx).2)

theorem stripSpacesUpper_idem (l : List Nat) :
    stripSpacesUpper (stripSpacesUpper l) = stripSpacesUpper l := by
  apply stripSpacesUpper_fix
  intro x hx
  unfold stripSpacesUpper at hx
  rcases List.mem_map.mp hx with ⟨y, hy, rfl⟩
  have hy32 : y ≠ 32 := by
    have := (List.mem_filter.mp hy).2
    simpa using this
  exact ⟨pyUpper_ne_space hy32, pyUpper_idem y⟩

/-- The shape case of `_normalize_course_code`: when the stripped
uppercased input decomposes into a nonempty run of uppercase letters
followed by a nonempty run of digits, the function returns the letters
followed by the digits right-padded with `'0'` up to width 5. -/
theorem normalize_shape (s dept num : List Nat)
    (hcode : stripSpacesUpper s = dept ++ num)
    (hd : dept ≠ []) (hdu : ∀ x ∈ dept, isUpperCode x = true)
    (hn : num ≠ []) (hnd : ∀ x ∈ num, isDigitCode x = true) :
    normalize_course_code s =
      dept ++ (num ++ List.replicate (5 - num.length) 48) := by
  obtain ⟨c, num', rfl⟩ : ∃ c num', num = c :: num' := by
    cases num with
    | nil => exact absurd rfl hn
    | cons c t => exact ⟨c, t, rfl⟩
  have hc : isUpperCode c = false := digit_not_upper (hnd c (List.Mem.head num'))
  have htw := takeWhile_append_run dept c num' hdu hc
  simp only [normalize_course_code, hcode, htw.1, htw.2]
  rw [if_pos]
  exact ⟨hd, by simp, List.all_eq_true.mpr hnd⟩

/-- The fallback case of `_normalize_course_code`: when no such
decomposition exists, the stripped uppercased input is returned
unchanged. -/
theorem normalize_noshape (s : List Nat)
    (h : ¬ ∃ dept num, stripSpacesUpper s = dept ++ num ∧ dept ≠ [] ∧
        (∀ x ∈ dept, isUpperCode x = true) ∧ num ≠ [] ∧
        (∀ x ∈ num, isDigitCode x = true)) :
    normalize_course_code s = stripSpacesUpper s := by
  simp only [normalize_course_code]
  rw [if_neg]
  rintro ⟨hd, hn, hall⟩
  exact h ⟨(stripSpacesUpper s).takeWhile isUpperCode,
    (stripSpacesUpper s).dropWhile isUpperCode,
    (List.takeWhile_append_dropWhile isUpperCode (stripSpacesUpper s)).symm,
    hd, fun x hx => List.mem_takeWhile_imp hx, hn,
    fun x hx => List.all_eq_true.mp hall x hx⟩

/-- C7: `_normalize_course_code` is idempotent: normalizing an already
normalized course code changes nothing, for every input string. -/
theorem claim_C7_normalize_idempotent (s : List Nat) :
    normalize_course_code (normalize_course_code s) = normalize_course_code s := by
  by_cases hc : (stripSpacesUpper s).takeWhile isUpperCode ≠ [] ∧
      (stripSpacesUpper s).dropWhile isUpperCode ≠ [] ∧
      ((stripSpacesUpper s).dropWhile isUpperCode).all isDigitCode
  · set code := stripSpacesUpper s with hcode
    set dept := code.takeWhile isUpperCode with hdept
    set num := code.dropWhile isUpperCode with hnum
    have h1 : normalize_course_code s =
        dept ++ (num ++ List.replicate (5 - num.length) 48) := by
      simp only [normalize_course_code]
      rw [if_pos hc]
    have hdu : ∀ x ∈ dept, isUpperCode x = true :=
      fun x hx => List.mem_takeWhile_imp hx
    have hnd : ∀ x ∈ num, isDigitCode x = true :=
      fun x hx => List.all_eq_true.mp hc.2.2 x hx
    set numZ := num ++ List.replicate (5 - num.length) 48 with hnumZ
    have hnzd : ∀ x ∈ numZ, isDigitCode x = true := by
      intro x hx
      rcases List.mem_append.mp hx with h | h
      · exact hnd x h
      · have hx48 : x = 48 := List.eq_of_mem_replicate h
        subst hx48
        decide
    have hfix : ∀ x ∈ dept ++ numZ, x ≠ 32 ∧ pyUpper x = x := by
      intro x hx
      rcases List.mem_append.mp hx with h | h
      · exact ⟨upper_ne_space (hdu x h), pyUpper_fix_of_upper (hdu x h)⟩
      · exact ⟨digit_ne_space (hnzd x h), pyUpper_fix_of_digit (hnzd x h)⟩
    have hnz : numZ ≠ [] := by
      rw [hnumZ]
      intro h
      exact hc.2.1 (List.append_eq_nil.mp h).1
    have h2 : normalize_course_code (dept ++ numZ) =
        dept ++ (numZ ++ List.replicate (5 - numZ.length) 48) :=
      normalize_shape (dept ++ numZ) dept numZ (stripSpacesUpper_fix hfix)
        hc.1 hdu hnz hnzd
    have hlen : 5 - numZ.length = 0 := by
      rw [hnumZ]
      simp only [List.length_append, List.length_replicate]
      omega
    rw [h1, h2, hlen]
    simp
  · have h1 : normalize_course_code s = stripSpacesUpper s := by
      simp only [normalize_course_code]
      rw [if_neg hc]
    rw [h1]
    simp only [normalize_course_code, stripSpacesUpper_idem s]
    rw [if_neg hc]

/-- C6 counterexample: on `"A123456"` (a 6-digit run), `ljust(5, "0")`
pads nothing and `_normalize_course_code` returns `"A123456"`, whose
digit run has 6 characters, not exactly 5. -/
theorem claim_C6_counterexample : ¬ padsToExactlyFive (ofStr "A123456") := by
  intro h
  have h6 := h [65] [49, 50, 51, 52, 53, 54]
    (by decide) (by decide) (by decide) (by decide) (by decide)
  have h7 : (normalize_course_code (ofStr "A123456")).length = 7 := by decide
  rw [h7] at h6
  simp at h6

/-- C6 (amended): `_normalize_course_code` removes all space characters
and uppercases the remainder; if the result decomposes as
`<letters><digits>`, it right-pads the digit run with `'0'` to AT LEAST
5 characters (digit runs already 5 or longer are returned unchanged) and
returns letters + padded digits; otherwise it returns the space-stripped
uppercased string unchanged (and, being a total function, never raises);
in particular `normalize("ABE 201") = "ABE20100"`,
`normalize("POL 10100") = "POL10100"`, `normalize("cs18000") = "CS18000"`. -/
theorem claim_C6_normalization :
    (∀ s dept num : List Nat, stripSpacesUpper s = dept ++ num → dept ≠ [] →
        (∀ x ∈ dept, isUpperCode x = true) → num ≠ [] →
        (∀ x ∈ num, isDigitCode x = true) →
        normalize_course_code s =
          dept ++ (num ++ List.replicate (5 - num.length) 48)) ∧
      (∀ s : List Nat,
        (¬ ∃ dept num, stripSpacesUpper s = dept ++ num ∧ dept ≠ [] ∧
            (∀ x ∈ dept, isUpperCode x = true) ∧ num ≠ [] ∧
            (∀ x ∈ num, isDigitCode x = true)) →
        normalize_course_code s = stripSpacesUpper s) ∧
      normalize_course_code (ofStr "ABE 201") = ofStr "ABE20100" ∧
      normalize_course_code (ofStr "POL 10100") = ofStr "POL10100" ∧
      normalize_course_code (ofStr "cs18000") = ofStr "CS18000" := by
  refine ⟨normalize_shape, normalize_noshape, by decide, by decide, by decide⟩

/-- C6 witness: the shape case applied at `"ABE 201"` — the 3-digit run
`201` is padded with two `'0'` to `20100`. -/
theorem claim_C6_normalization_witness :
    normalize_course_code (ofStr "ABE 201") = ofStr "ABE20100" := by
  have h := claim_C6_normalization.1 (ofStr "ABE 201")
    (ofStr "ABE") (ofStr "201")
    (by decide) (by decide) (by decide) (by decide) (by decide)
  exact h.trans (by decide)

/-- Characterization of `_extract_department` on successful matches: it
returns `some d` exactly when the name starts with the nonempty
uppercase-letter run `d` immediately followed by a digit (such a
decomposition is automatically the maximal leading letter run, since
the digit ends it). -/
theorem extract_some_iff (name d : List Nat) :
    extract_department name = some d ↔
      d ≠ [] ∧ (∀ x ∈ d, isUpperCode x = true) ∧
        ∃ c rest, name = d ++ c :: rest ∧ isDigitCode c = true := by
  constructor
  · intro h
    cases hdw : name.dropWhile isUpperCode with
    | nil => simp [extract_department, hdw] at h
    | cons c r =>
      simp only [extract_department, hdw] at h
      by_cases hcond : name.takeWhile isUpperCode ≠ [] ∧ isDigitCode c = true
      · rw [if_pos hcond] at h
        have hd : d = name.takeWhile isUpperCode := (Option.some_inj.mp h).symm
        subst hd
        refine ⟨hcond.1, fun x hx => List.mem_takeWhile_imp hx, c, r, ?_, hcond.2⟩
        rw [← hdw]
        exact (List.takeWhile_append_dropWhile isUpperCode name).symm
      · rw [if_neg hcond] at h
        cases h
  · rintro ⟨hd, hdu, c, rest, rfl, hc⟩
    have htw := takeWhile_append_run d c rest hdu (digit_not_upper hc)
    simp only [extract_department, htw.1, htw.2]
    rw [if_pos ⟨hd, hc⟩]

/-- C8: `_extract_department` returns the leading run of uppercase
letters exactly when that run is nonempty and immediately followed by a
digit, and `None` when no such prefix exists; it is a pure total
function; in particular it maps `"POL10100_Spring2026_X.pdf"` to `"POL"`
and `"readme.txt"` to `None`. -/
theorem claim_C8_department_extraction :
    (∀ name d : List Nat,
        extract_department name = some d ↔
          d ≠ [] ∧ (∀ x ∈ d, isUpperCode x = true) ∧
            ∃ c rest, name = d ++ c :: rest ∧ isDigitCode c = true) ∧
      (∀ name : List Nat,
        extract_department name = none ↔
          ¬ ∃ d c rest, name = d ++ c :: rest ∧ d ≠ [] ∧
            (∀ x ∈ d, isUpperCode x = true) ∧ isDigitCode c = true) ∧
      extract_department (ofStr "POL10100_Spring2026_X.pdf") = some (ofStr "POL") ∧
      extract_department (ofStr "readme.txt") = none := by
  refine ⟨extract_some_iff, ?_, by decide, by decide⟩
  intro name
  constructor
  · intro h
    rintro ⟨d, c, rest, hname, hd, hdu, hc⟩
    have : extract_department name = some d :=
      (extract_some_iff name d).mpr ⟨hd, hdu, c, rest, hname, hc⟩
    rw [h] at this
    cases this
  · intro h
    cases hx : extract_department name with
    | none => rfl
    | some d =>
      rcases (extract_some_iff name d).mp hx with ⟨hd, hdu, c, rest, hname, hc⟩
      exact absurd ⟨d, c, rest, hname, hd, hdu, hc⟩ h

/-- C4: evaluation at the divergence point.  `analyze_program` builds
its course prefix set with plain `replace(" ", "").upper()` and no
zero-padding (analyze.py:243), so the course `"ABE 201"` yields the
prefix `"ABE201"` and the file `"ABE20100_F25.pdf"` (leading segment
`"ABE20100"`) is NOT selected — even though the two identifiers
normalize identically under `_normalize_course_code` and the file's
extension is supported.  Under the spec's selection (prefixes built by
the canonical zero-padding normalizer, `matching_files_spec`) the file
IS selected, as the claim states. -/
theorem claim_C4_program_selection_divergence :
    matching_files [ofStr "ABE 201"] [ofStr "ABE20100_F25.pdf"] = [] ∧
      normalize_course_code (ofStr "ABE 201") =
        code_of_file (ofStr "ABE20100_F25.pdf") ∧
      supportedExt (ofStr "ABE20100_F25.pdf") = true ∧
      matching_files_spec [ofStr "ABE 201"] [ofStr "ABE20100_F25.pdf"] =
        [ofStr "ABE20100_F25.pdf"] := by
  decide

/-!  Helper lemmas about the validator.  -/

theorem isOkE_bind_false {α β : Type} (x : Except String α)
    (f : α → Except String β) (h : ∀ a, isOkE (f a) = false) :
    isOkE (x >>= f) = false := by
  cases x with
  | error e => rfl
  | ok a => exact h a

theorem reqField_none {fs : List (String × Json)} {k : String}
    (h : getField fs k = none) :
    reqField fs k = Except.error ("missing field " ++ k) := by
  simp [reqField, h]

theorem reqField_some {fs : List (String × Json)} {k : String} {j : Json}
    (h : getField fs k = some j) : reqField fs k = Except.ok j := by
  simp [reqField, h]

/-- Missing `review_decision` makes `course_analysis` validation fail,
whatever the other fields hold. -/
theorem validateCourseAnalysis_missing_decision (fs : List (String × Json))
    (h : getField fs "review_decision" = none) :
    isOkE (validateCourseAnalysis (Json.obj fs)) = false := by
  simp only [validateCourseAnalysis]
  refine isOkE_bind_false _ _ (fun p => ?_)
  refine isOkE_bind_false _ _ (fun r => ?_)
  refine isOkE_bind_false _ _ (fun sa => ?_)
  refine isOkE_bind_false _ _ (fun ev => ?_)
  refine isOkE_bind_false _ _ (fun ex => ?_)
  rw [reqField_none h]
  rfl

/-- A review whose `course_analysis` object lacks `review_decision`
fails validation as a whole. -/
theorem validateSyllabusReview_missing_decision
    (fs ca : List (String × Json))
    (hca : getField fs "course_analysis" = some (Json.obj ca))
    (h : getField ca "review_decision" = none) :
    isOkE (validateSyllabusReview (Json.obj fs)) = false := by
  have hleft : ∀ {α β : Type} (x : Except String α) (f : α → Except String β),
      isOkE x = false → isOkE (x >>= f) = false := by
    intro α β x f hx
    cases x with
    | error e => rfl
    | ok a => simp [isOkE] at hx
  simp only [validateSyllabusReview]
  refine isOkE_bind_false _ _ (fun ci => ?_)
  rw [reqField_some hca]
  have hred : ((Except.ok (Json.obj ca) : Except String Json) >>=
      validateCourseAnalysis) = validateCourseAnalysis (Json.obj ca) := rfl
  rw [hred]
  exact hleft _ _ (validateCourseAnalysis_missing_decision ca h)

/-- A criterion score outside the literals `{0, 1}` is rejected. -/
theorem validateScored_bad_score (fs : List (String × Json)) (n : Int)
    (hget : getField fs "score" = some (Json.num n)) (h0 : n ≠ 0) (h1 : n ≠ 1) :
    isOkE (validateScored (Json.obj fs)) = false := by
  simp only [validateScored]
  rw [reqField_some hget]
  have hred : ∀ (g : Json → Except String ScoredCriterion),
      ((Except.ok (Json.num n) : Except String Json) >>= g) = g (Json.num n) :=
    fun g => rfl
  rw [hred]
  simp only [h0, h1, or_self, if_neg, not_false_iff, false_or]
  rfl

/-- A decision outside the three literals is rejected. -/
theorem validateDecision_bad_literal (fs : List (String × Json)) (t : String)
    (hget : getField fs "decision" = some (Json.str t))
    (ha : t ≠ "approved") (hn : t ≠ "not_approved") (hd : t ≠ "deferred") :
    isOkE (validateDecision (Json.obj fs)) = false := by
  simp only [validateDecision]
  rw [reqField_some hget]
  have hred : ∀ (g : Json → Except String ReviewDecision),
      ((Except.ok (Json.str t) : Except String Json) >>= g) = g (Json.str t) :=
    fun g => rfl
  rw [hred]
  simp only [ha, hn, hd, or_self, if_neg, not_false_iff, false_or]
  rfl

theorem getField_append_unknown (fs : List (String × Json)) (k k' : String)
    (v : Json) (h : k' ≠ k) :
    getField (fs ++ [(k', v)]) k = getField fs k := by
  induction fs with
  | nil => simp [getField, List.find?, h]
  | cons a as ih =>
    by_cases ha : a.1 = k
    · simp [getField, List.find?, ha]
    · simp only [getField, List.cons_append] at ih ⊢
      rw [List.find?_cons_of_neg _ (by simpa using ha),
        List.find?_cons_of_neg _ (by simpa using ha)]
      exact ih

/-- Adding an unknown top-level field leaves validation unchanged:
unknown fields are tolerated and ignored. -/
theorem validateSyllabusReview_unknown_field (fs : List (String × Json))
    (k : String) (v : Json)
    (h1 : k ≠ "course_information") (h2 : k ≠ "course_analysis") :
    validateSyllabusReview (Json.obj (fs ++ [(k, v)])) =
      validateSyllabusReview (Json.obj fs) := by
  simp only [validateSyllabusReview, reqField,
    getField_append_unknown fs "course_information" k v h1,
    getField_append_unknown fs "course_analysis" k v h2]

/-- A failed judgment-or-validation outcome is stored as an Error
Record, never as a Rubric Record. -/
theorem mkRecord_of_error (judge : List Nat → Except String SyllabusReview)
    (f : List Nat) (e : String) (h : judge f = Except.error e) :
    mkRecord judge f = Record.error f e := by
  simp [mkRecord, h]

/-- C5: Schema validation is strict and fails closed — a parsed output
whose `course_analysis` lacks the `review_decision` field is rejected
(also when `review_decision` is missing at the analysis level directly),
a criterion score outside the literals `{0, 1}` is rejected, a decision
outside the three literals `approved`/`not_approved`/`deferred` is
rejected, additional unknown fields are tolerated and ignored, and a
failed judgment-or-validation outcome is stored as an Error Record
carrying the failure's message, never as a Rubric Record. -/
theorem claim_C5_strict_validation :
    (∀ fs : List (String × Json),
        getField fs "review_decision" = none →
        isOkE (validateCourseAnalysis (Json.obj fs)) = false) ∧
      (∀ fs ca : List (String × Json),
        getField fs "course_analysis" = some (Json.obj ca) →
        getField ca "review_decision" = none →
        isOkE (validateSyllabusReview (Json.obj fs)) = false) ∧
      (∀ (fs : List (String × Json)) (n : Int),
        getField fs "score" = some (Json.num n) → n ≠ 0 → n ≠ 1 →
        isOkE (validateScored (Json.obj fs)) = false) ∧
      (∀ (fs : List (String × Json)) (t : String),
        getField fs "decision" = some (Json.str t) →
        t ≠ "approved" → t ≠ "not_approved" → t ≠ "deferred" →
        isOkE (validateDecision (Json.obj fs)) = false) ∧
      (∀ (fs : List (String × Json)) (k : String) (v : Json),
        k ≠ "course_information" → k ≠ "course_analysis" →
        validateSyllabusReview (Json.obj (fs ++ [(k, v)])) =
          validateSyllabusReview (Json.obj fs)) ∧
      (∀ (judge : List Nat → Except String SyllabusReview)
          (f : List Nat) (e : String),
        judge f = Except.error e → mkRecord judge f = Record.error f e) :=
  ⟨validateCourseAnalysis_missing_decision,
   validateSyllabusReview_missing_decision,
   validateScored_bad_score,
   validateDecision_bad_literal,
   validateSyllabusReview_unknown_field,
   mkRecord_of_error⟩

/-- C5 witness: concrete instances — an empty analysis object (so
`review_decision` is missing), a score of 2, a decision `"maybe"`, an
unknown extra field on an empty review object, and a failing judge. -/
theorem claim_C5_strict_validation_witness :
    isOkE (validateCourseAnalysis (Json.obj [])) = false ∧
      isOkE (validateSyllabusReview
        (Json.obj [("course_analysis", Json.obj [])])) = false ∧
      isOkE (validateScored (Json.obj [("score", Json.num 2)])) = false ∧
      isOkE (validateDecision (Json.obj [("decision", Json.str "maybe")])) = false ∧
      validateSyllabusReview (Json.obj [("extra", Json.null)]) =
        validateSyllabusReview (Json.obj []) ∧
      mkRecord (fun _ => Except.error "service failure") (ofStr "ABE10100_A.pdf") =
        Record.error (ofStr "ABE10100_A.pdf") "service failure" := by
  refine ⟨?_, ?_, ?_, ?_, ?_, ?_⟩
  · exact claim_C5_strict_validation.1 [] rfl
  · exact claim_C5_strict_validation.2.1 [("course_analysis", Json.obj [])] []
      rfl rfl
  · exact claim_C5_strict_validation.2.2.1 [("score", Json.num 2)] 2 rfl
      (by decide) (by decide)
  · exact claim_C5_strict_validation.2.2.2.1 [("decision", Json.str "maybe")]
      "maybe" rfl (by decide) (by decide) (by decide)
  · exact claim_C5_strict_validation.2.2.2.2.1 [] "extra" Json.null
      (by decide) (by decide)
  · exact claim_C5_strict_validation.2.2.2.2.2
      (fun _ => Except.error "service failure") (ofStr "ABE10100_A.pdf")
      "service failure" rfl

/-!  The lexicographic order on code-point lists is total and transitive,
so insertion sort produces a sorted permutation.  -/

theorem lexLe_total : ∀ a b : List Nat, lexLe a b = true ∨ lexLe b a = true := by
  intro a
  induction a with
  | nil => intro b; exact Or.inl rfl
  | cons x xs ih =>
    intro b
    cases b with
    | nil => exact Or.inr rfl
    | cons y ys =>
      by_cases hxy : x < y
      · left; simp [lexLe, hxy]
      · by_cases heq : x = y
        · subst heq
          rcases ih ys with h | h
          · left; simp [lexLe, h]
          · right; simp [lexLe, h]
        · have hyx : y < x := by omega
          right; simp [lexLe, hyx]

theorem lexLe_trans : ∀ a b c : List Nat,
    lexLe a b = true → lexLe b c = true → lexLe a c = true := by
  intro a
  induction a with
  | nil => intro b c _ _; rfl
  | cons x xs ih =>
    intro b c hab hbc
    cases b with
    | nil => simp [lexLe] at hab
    | cons y ys =>
      cases c with
      | nil => simp [lexLe] at hbc
      | cons z zs =>
        simp only [lexLe] at hab hbc ⊢
        by_cases hxy : x < y
        · by_cases hyz : y < z
          · rw [if_pos (by omega)]
          · simp only [if_neg hyz] at hbc
            by_cases heq : y = z
            · subst heq; rw [if_pos hxy]
            · simp [heq] at hbc
        · simp only [if_neg hxy] at hab
          by_cases heq : x = y
          · subst heq
            simp only [if_pos rfl] at hab
            by_cases hyz : x < z
            · rw [if_pos hyz]
            · simp only [if_neg hyz] at hbc ⊢
              by_cases heq2 : x = z
              · rw [if_pos heq2]
                rw [if_pos heq2] at hbc
                exact ih ys zs hab hbc
              · simp [heq2] at hbc
          · simp [heq] at hab

instance : IsTotal (List Nat) lexLeP := ⟨lexLe_total⟩

instance : IsTrans (List Nat) lexLeP := ⟨lexLe_trans⟩

/-- C9: the missing-courses report lists exactly those courses, in raw
form and sorted, whose canonical normalized key is absent from the
discovered file identifier prefixes; `total_courses` is the course
count, `found = total_courses - missing_count`, and `missing_count` is
the length of the missing list; in particular for courses
`["ABE 201", "XYZ 999"]` and a discovered file `"ABE20100_F25.pdf"`
(identifier set `{"ABE20100"}`) the report is
`{program, 2, 1, 1, ["XYZ 999"]}`. -/
theorem claim_C9_missing_courses (program : List Nat)
    (courses files : List (List Nat)) :
    (∀ c, c ∈ (missing_report program courses files).missing_courses ↔
        c ∈ courses ∧ normalize_course_code c ∉ syllabi_codes files) ∧
      List.Sorted lexLeP (missing_report program courses files).missing_courses ∧
      (missing_report program courses files).program = program ∧
      (missing_report program courses files).total_courses = courses.length ∧
      (missing_report program courses files).found =
        courses.length - (missing_report program courses files).missing_count ∧
      (missing_report program courses files).missing_count =
        (missing_report program courses files).missing_courses.length ∧
      missing_report (ofStr "P") [ofStr "ABE 201", ofStr "XYZ 999"]
          [ofStr "ABE20100_F25.pdf"] =
        { program := ofStr "P", total_courses := 2, found := 1,
          missing_count := 1, missing_courses := [ofStr "XYZ 999"] } := by
  refine ⟨?_, ?_, rfl, rfl, rfl, rfl, by decide⟩
  · intro c
    simp only [missing_report, find_missing]
    rw [(List.perm_insertionSort lexLeP _).mem_iff, List.mem_filter]
    simp
  · exact List.sorted_insertionSort lexLeP _

/-!  Helper lemmas about the department grouping.  -/

theorem addToGroup_inv (gs : List (List Nat × List (List Nat)))
    (d f : List Nat)
    (hinv : ∀ p ∈ gs, ∀ x ∈ p.2, extract_department x ≠ none)
    (hf : extract_department f ≠ none) :
    ∀ p ∈ addToGroup gs d f, ∀ x ∈ p.2, extract_department x ≠ none := by
  induction gs with
  | nil =>
    intro p hp x hx
    simp only [addToGroup] at hp
    rcases List.mem_singleton.mp hp with rfl
    rcases List.mem_singleton.mp hx with rfl
    exact hf
  | cons g rest ih =>
    intro p hp x hx
    simp only [addToGroup] at hp
    by_cases hk : g.1 = d
    · rw [if_pos hk] at hp
      rcases List.mem_cons.mp hp with rfl | hp'
      · rcases List.mem_append.mp hx with h | h
        · exact hinv g (List.Mem.head rest) x h
        · rcases List.mem_singleton.mp h with rfl
          exact hf
      · exact hinv p (List.Mem.tail g hp') x hx
    · rw [if_neg hk] at hp
      rcases List.mem_cons.mp hp with rfl | hp'
      · exact hinv g (List.Mem.head rest) x hx
      · exact ih (fun q hq => hinv q (List.Mem.tail g hq)) p hp' x hx

/-- Every file placed in any department group has an extractable
department: files with no department are added to no group. -/
theorem dept_files_no_none (files : List (List Nat)) :
    ∀ p ∈ dept_files files, ∀ x ∈ p.2, extract_department x ≠ none := by
  have main : ∀ (fs : List (List Nat)) (gs : List (List Nat × List (List Nat))),
      (∀ p ∈ gs, ∀ x ∈ p.2, extract_department x ≠ none) →
      ∀ p ∈ fs.foldl
          (fun gs f =>
            match extract_department f with
            | some d => addToGroup gs d f
            | none => gs) gs,
        ∀ x ∈ p.2, extract_department x ≠ none := by
    intro fs
    induction fs with
    | nil => intro gs hinv p hp x hx; exact hinv p hp x hx
    | cons f rest ih =>
      intro gs hinv p hp x hx
      rw [List.foldl_cons] at hp
      cases hdep : extract_department f with
      | none =>
        rw [hdep] at hp
        exact ih gs hinv p hp x hx
      | some d =>
        rw [hdep] at hp
        exact ih (addToGroup gs d f)
          (addToGroup_inv gs d f hinv (by rw [hdep]; exact fun h => Option.noConfusion h))
          p hp x hx
  exact main files [] (by intro p hp x hx; cases hp)

/-- C10 (implicit): in a program-scope run, a discovered file whose name
matches a course of the program but yields no department
(`_extract_department` returns `None`, e.g. a name starting with a
lowercase letter) is silently dropped: it is placed in no department
group, and — since each department scope only analyzes its group's
files — no record with its name is ever produced or stored, for any
judge and any prior store content not already naming it. -/
theorem claim_C10_departmentless_file_dropped
    (courses allFiles : List (List Nat)) (f : List Nat)
    (judge : List Nat → Except String SyllabusReview)
    (hmem : f ∈ allFiles) (hsupp : supportedExt f = true)
    (hmatch : code_of_file f ∈ coursePrefixSet courses)
    (hnone : extract_department f = none) :
    (∀ p ∈ dept_files (matching_files courses allFiles), f ∉ p.2) ∧
      (∀ p ∈ dept_files (matching_files courses allFiles),
        ∀ d0 : Option (List Record), f ∉ sources (d0.getD []) →
          ∀ r ∈ (analyzeFiles judge p.2 d0).results, Record.src r ≠ f) := by
  have hng := dept_files_no_none (matching_files courses allFiles)
  constructor
  · intro p hp hf
    exact hng p hp f hf hnone
  · intro p hp d0 hd0 r hr hsrc
    rcases foldl_src_bound judge (sources (d0.getD [])) p.2
        { results := d0.getD [], disk := d0 } r hr with h | h
    · exact hd0 (hsrc ▸ List.mem_map.mpr ⟨r, h, rfl⟩)
    · rw [hsrc] at h
      exact hng p hp f h hnone

/-- C10 witness: the program contains `"ABE 20100"` and `"ABE 10100"`;
`"abe20100_F25.pdf"` matches the first course's prefix but starts with a
lowercase letter, so it lands in no group, while `"ABE10100_S.pdf"`
forms the only group; running that group produces only a record for the
grouped file. -/
theorem claim_C10_departmentless_file_dropped_witness :
    ofStr "abe20100_F25.pdf" ∉ [ofStr "ABE10100_S.pdf"] ∧
      Record.src (Record.error (ofStr "ABE10100_S.pdf") "service failure") ≠
        ofStr "abe20100_F25.pdf" := by
  have h := claim_C10_departmentless_file_dropped
    [ofStr "ABE 20100", ofStr "ABE 10100"]
    [ofStr "abe20100_F25.pdf", ofStr "ABE10100_S.pdf"]
    (ofStr "abe20100_F25.pdf")
    (fun _ => Except.error "service failure")
    (by decide) (by decide) (by decide) (by decide)
  refine ⟨?_, ?_⟩
  · exact h.1 (ofStr "ABE", [ofStr "ABE10100_S.pdf"]) (by decide)
  · exact h.2 (ofStr "ABE", [ofStr "ABE10100_S.pdf"]) (by decide) none
      (by decide)
      (Record.error (ofStr "ABE10100_S.pdf") "service failure") (by decide)

/-- C3 witness: a concrete run from a nonexistent store preserves the
(empty) loaded sequence as a front segment of the final results. -/
theorem claim_C3_append_only_frame_witness :
    ((none : Option (List Record)).getD []) <+:
      (analyzeFiles sampleJudge [ofStr "ABE10100_A.pdf"] none).results :=
  claim_C3_append_only_frame.2.1 sampleJudge [ofStr "ABE10100_A.pdf"] none

/-- C8 witness: the characterization applied at a concrete name. -/
theorem claim_C8_department_extraction_witness :
    extract_department (ofStr "CS18000_F25.pdf") = some (ofStr "CS") :=
  (claim_C8_department_extraction.1 (ofStr "CS18000_F25.pdf") (ofStr "CS")).mpr
    ⟨by decide, by decide, 49, ofStr "8000_F25.pdf", by decide, by decide⟩
